import Mathlib

/-
  Verification development for the collab-time repository.

  The definitions below are shallow embeddings of the client-side core of the
  application: the overlap engine of components/timezone-visualizer.tsx, the
  team-state transforms of app/[teamId]/page.tsx and app/[teamId]/client.tsx,
  the local identity resolver of hooks/use-current-team-user.ts, and the
  session validation of lib/team-session.ts.
-/

namespace CollabTime

/-- A team member as in types: id, display name, optional title, timezone
name, working-hours start and end (hour slots), optional group reference. -/
structure TeamMember where
  id : String
  name : String
  title : Option String
  timezone : String
  workingHoursStart : Nat
  workingHoursEnd : Nat
  groupId : Option String
deriving DecidableEq

/-- A group: id, name and integer display order. -/
structure TeamGroup where
  id : String
  name : String
  order : Int
deriving DecidableEq

/-- The team snapshot held by the authoritative store: name, ordered member
list and group list. -/
structure TeamSnapshot where
  name : String
  members : List TeamMember
  groups : List TeamGroup
deriving DecidableEq

/-! ### Overlap engine (components/timezone-visualizer.tsx) -/

/-- One iteration of the mask-filling loop in memberRows: the assignment
setting slot h of the hours array to true. Out-of-range indices leave the
list unchanged; the component only uses in-range indices. -/
def setTrue (hours : List Bool) (h : Nat) : List Bool :=
  hours.set h true

/-- The loop of memberRows that sets hours s, s+1, ..., e-1 to true. -/
def fillRange (hours : List Bool) (s e : Nat) : List Bool :=
  (List.range' s (e - s)).foldl setTrue hours

/-- The mask construction of memberRows: a 24-element boolean array, filled
over the converted window with the wraparound split on start vs end. -/
def buildMask (startInViewerTz endInViewerTz : Nat) : List Bool :=
  let hours := List.replicate 24 false
  if startInViewerTz ≤ endInViewerTz then
    fillRange hours startInViewerTz endInViewerTz
  else
    fillRange (fillRange hours startInViewerTz 24) 0 endInViewerTz

/-- The per-member working mask in viewer-local hours, parameterized by the
convertHourToTimezone function of lib/timezones (hour, fromTz, toTz). -/
def memberMask (convert : Nat → String → String → Nat)
    (viewerTimezone : String) (m : TeamMember) : List Bool :=
  buildMask (convert m.workingHoursStart m.timezone viewerTimezone)
    (convert m.workingHoursEnd m.timezone viewerTimezone)

/-- The memberRows computation: empty when the viewer timezone is not yet
resolved, otherwise one row with a mask per member. -/
def memberRows (convert : Nat → String → String → Nat)
    (viewerTimezone : String) (members : List TeamMember) :
    List (TeamMember × List Bool) :=
  if viewerTimezone = "" then []
  else members.map (fun m => (m, memberMask convert viewerTimezone m))

/-- The overlapHours computation: element-wise AND of two masks over the 24
hour slots. -/
def overlapMask (a b : List Bool) : List Bool :=
  (List.range 24).map (fun hour => a.getD hour false && b.getD hour false)

theorem foldl_setTrue_getElem? (n : Nat) :
    ∀ (a : Nat) (l : List Bool) (i : Nat),
      ((List.range' a n).foldl setTrue l)[i]? =
        if a ≤ i ∧ i < a + n ∧ i < l.length then some true else l[i]? := by
  induction n with
  | zero =>
    intro a l i
    rw [if_neg (by omega)]
    rfl
  | succ n ih =>
    intro a l i
    rw [List.range'_succ]
    simp only [List.foldl_cons]
    rw [ih (a + 1) (setTrue l a) i]
    unfold setTrue
    rw [List.length_set, List.getElem?_set]
    by_cases hai : a = i
    · subst hai
      by_cases hl : a < l.length
      · by_cases hrest : a + 1 ≤ a ∧ a < a + 1 + n ∧ a < l.length
        · simp [hrest, hl, show a ≤ a ∧ a < a + (n + 1) ∧ a < l.length from by omega]
        · simp [hrest, hl, show a ≤ a ∧ a < a + (n + 1) ∧ a < l.length from by omega]
      · have h1 : ¬(a + 1 ≤ a ∧ a < a + 1 + n ∧ a < l.length) := by omega
        have h2 : ¬(a ≤ a ∧ a < a + (n + 1) ∧ a < l.length) := by omega
        simp [h1, h2, hl]
        omega
    · have heq : (a = i) = False := by simp [hai]
      by_cases hrest : a + 1 ≤ i ∧ i < a + 1 + n ∧ i < l.length
      · have h2 : a ≤ i ∧ i < a + (n + 1) ∧ i < l.length := by omega
        simp [hrest, h2, hai]
      · have h2 : ¬(a ≤ i ∧ i < a + (n + 1) ∧ i < l.length) := by
          intro h
          rcases Nat.lt_or_ge i (a + 1) with hlt | hge
          · omega
          · exact hrest ⟨hge, by omega, h.2.2⟩
        simp [hrest, h2, hai]

theorem fillRange_getElem? (l : List Bool) (s e i : Nat) :
    (fillRange l s e)[i]? =
      if s ≤ i ∧ i < e ∧ i < l.length then some true else l[i]? := by
  unfold fillRange
  rw [foldl_setTrue_getElem?]
  by_cases hse : s ≤ e
  · have : (s ≤ i ∧ i < s + (e - s) ∧ i < l.length) ↔
        (s ≤ i ∧ i < e ∧ i < l.length) := by omega
    simp only [this]
  · have h1 : ¬(s ≤ i ∧ i < s + (e - s) ∧ i < l.length) := by omega
    have h2 : ¬(s ≤ i ∧ i < e ∧ i < l.length) := by omega
    simp [h1, h2]

theorem fillRange_length (l : List Bool) (s e : Nat) :
    (fillRange l s e).length = l.length := by
  unfold fillRange
  induction (List.range' s (e - s)) generalizing l with
  | nil => rfl
  | cons a t ih =>
    simp only [List.foldl_cons]
    rw [ih (setTrue l a)]
    exact List.length_set ..

theorem buildMask_length (s e : Nat) : (buildMask s e).length = 24 := by
  unfold buildMask
  by_cases h : s ≤ e <;>
    simp [h, fillRange_length]

theorem replicate_false_getElem? (h : Nat) (hh : h < 24) :
    (List.replicate 24 false)[h]? = some false := by
  rw [List.getElem?_replicate, if_pos hh]

theorem buildMask_getElem? (s e h : Nat) (hh : h < 24) :
    (buildMask s e)[h]? =
      some (if s ≤ e then decide (s ≤ h ∧ h < e) else decide (s ≤ h ∨ h < e)) := by
  simp only [buildMask]
  by_cases hse : s ≤ e
  · rw [if_pos hse, if_pos hse, fillRange_getElem?]
    by_cases hin : s ≤ h ∧ h < e
    · rw [if_pos ⟨hin.1, hin.2, by simpa using hh⟩, decide_eq_true hin]
    · rw [if_neg (fun hc => hin ⟨hc.1, hc.2.1⟩), decide_eq_false hin,
        replicate_false_getElem? h hh]
  · rw [if_neg hse, if_neg hse, fillRange_getElem?, fillRange_getElem?, fillRange_length]
    by_cases hlo : h < e
    · rw [if_pos ⟨Nat.zero_le h, hlo, by simpa using hh⟩,
        decide_eq_true (Or.inr hlo)]
    · rw [if_neg (fun hc => hlo hc.2.1)]
      by_cases hhi : s ≤ h
      · rw [if_pos ⟨hhi, hh, by simpa using hh⟩, decide_eq_true (Or.inl hhi)]
      · rw [if_neg (fun hc => hhi hc.1),
          decide_eq_false (fun hc => hc.elim hhi hlo),
          replicate_false_getElem? h hh]

/-- C1: for every member and viewer timezone, the 24-element working mask is
true exactly at the viewer-local hours of the converted half-open window,
honoring wraparound: with converted start s and end e, when s ≤ e the mask is
true at hours h with s ≤ h < e, and when s > e it is true at hours from s to
23 and at hours below e, and false at every other hour. -/
theorem memberMask_matches_converted_window
    (convert : Nat → String → String → Nat) (viewerTimezone : String)
    (m : TeamMember) :
    (memberMask convert viewerTimezone m).length = 24 ∧
    ∀ h, h < 24 →
      (memberMask convert viewerTimezone m)[h]? =
        some (if convert m.workingHoursStart m.timezone viewerTimezone ≤
                  convert m.workingHoursEnd m.timezone viewerTimezone then
                decide (convert m.workingHoursStart m.timezone viewerTimezone ≤ h ∧
                        h < convert m.workingHoursEnd m.timezone viewerTimezone)
              else
                decide (convert m.workingHoursStart m.timezone viewerTimezone ≤ h ∨
                        h < convert m.workingHoursEnd m.timezone viewerTimezone)) := by
  constructor
  · exact buildMask_length ..
  · intro h hh
    exact buildMask_getElem? _ _ h hh

/-- Sample member with an overnight window used to witness C1. -/
def memNight : TeamMember :=
  { id := "n1", name := "Nia", title := none, timezone := "X"
    workingHoursStart := 22, workingHoursEnd := 6, groupId := none }

/-- Identity conversion used in witnesses: viewer shares the member timezone
offset. -/
def convId : Nat → String → String → Nat := fun h _ _ => h

theorem memberMask_matches_converted_window_witness :
    (23 < 24 ∧ (memberMask convId "Y" memNight)[23]? = some true) ∧
    (10 < 24 ∧ (memberMask convId "Y" memNight)[10]? = some false) := by
  constructor
  · refine ⟨by omega, ?_⟩
    have h := (memberMask_matches_converted_window convId "Y" memNight).2 23 (by omega)
    rw [h]; rfl
  · refine ⟨by omega, ?_⟩
    have h := (memberMask_matches_converted_window convId "Y" memNight).2 10 (by omega)
    rw [h]; rfl

theorem buildMask_self (s : Nat) : buildMask s s = List.replicate 24 false := by
  simp only [buildMask]
  rw [if_pos (Nat.le_refl s)]
  unfold fillRange
  rw [Nat.sub_self]
  rfl

theorem getD_replicate_false (hour : Nat) :
    (List.replicate 24 false).getD hour false = false := by
  rw [List.getD_eq_getElem?_getD]
  rcases Nat.lt_or_ge hour 24 with h | h
  · rw [replicate_false_getElem? hour h]
    rfl
  · rw [List.getElem?_replicate, if_neg (by omega)]
    rfl

theorem overlapMask_left_false (b : List Bool) :
    overlapMask (List.replicate 24 false) b = List.replicate 24 false := by
  unfold overlapMask
  have h : ∀ hour ∈ List.range 24,
      ((List.replicate 24 false).getD hour false && b.getD hour false) =
        (fun _ => false) hour := by
    intro hour _
    rw [getD_replicate_false, Bool.false_and]
  rw [List.map_congr_left h]
  rfl

theorem overlapMask_right_false (b : List Bool) :
    overlapMask b (List.replicate 24 false) = List.replicate 24 false := by
  unfold overlapMask
  have h : ∀ hour ∈ List.range 24,
      (b.getD hour false && (List.replicate 24 false).getD hour false) =
        (fun _ => false) hour := by
    intro hour _
    rw [getD_replicate_false, Bool.and_false]
  rw [List.map_congr_left h]
  rfl

/-- C10: a member whose working-hours start and end convert to the same
viewer-local hour receives the all-false 24-element mask, and therefore
contributes no true hour to any pairwise overlap mask. -/
theorem degenerate_window_never_working
    (convert : Nat → String → String → Nat) (viewerTimezone : String)
    (m : TeamMember)
    (heq : convert m.workingHoursStart m.timezone viewerTimezone =
        convert m.workingHoursEnd m.timezone viewerTimezone) :
    memberMask convert viewerTimezone m = List.replicate 24 false ∧
    ∀ other : List Bool,
      overlapMask (memberMask convert viewerTimezone m) other =
          List.replicate 24 false ∧
      overlapMask other (memberMask convert viewerTimezone m) =
          List.replicate 24 false := by
  have hmask : memberMask convert viewerTimezone m = List.replicate 24 false := by
    unfold memberMask
    rw [heq]
    exact buildMask_self _
  refine ⟨hmask, fun other => ?_⟩
  rw [hmask]
  exact ⟨overlapMask_left_false other, overlapMask_right_false other⟩

/-- Sample member whose start and end hour coincide. -/
def memDegenerate : TeamMember :=
  { id := "d1", name := "Dee", title := none, timezone := "Z"
    workingHoursStart := 9, workingHoursEnd := 9, groupId := none }

theorem degenerate_window_never_working_witness :
    memberMask convId "V" memDegenerate = List.replicate 24 false ∧
    overlapMask (memberMask convId "V" memDegenerate)
        (memberMask convId "V" memNight) = List.replicate 24 false := by
  have h := degenerate_window_never_working convId "V" memDegenerate rfl
  exact ⟨h.1, (h.2 (memberMask convId "V" memNight)).1⟩

/-! ### Authoritative team state store transforms (app/[teamId]/page.tsx) -/

/-- The team.memberAdded transform: append the payload member unless a member
with the same id is already present. -/
def memberAdded (newMember : TeamMember) (t : TeamSnapshot) : TeamSnapshot :=
  if t.members.any (fun m => m.id == newMember.id) then t
  else { t with members := t.members ++ [newMember] }

theorem memberAdded_of_any (t : TeamSnapshot) (nm : TeamMember)
    (h : t.members.any (fun m => m.id == nm.id) = true) :
    memberAdded nm t = t := by
  unfold memberAdded
  rw [if_pos h]

theorem memberAdded_of_not_any (t : TeamSnapshot) (nm : TeamMember)
    (h : t.members.any (fun m => m.id == nm.id) = false) :
    memberAdded nm t = { t with members := t.members ++ [nm] } := by
  unfold memberAdded
  rw [h]
  rfl

/-- C4: the memberAdded transform appends only when the id is fresh, is a
no-op on duplicate ids, is idempotent under duplicate delivery, leaves
exactly one member with the payload id after a double delivery, and
preserves uniqueness of member ids. -/
theorem memberAdded_idempotent_unique (t : TeamSnapshot) (nm : TeamMember) :
    ((∃ m ∈ t.members, m.id = nm.id) → memberAdded nm t = t) ∧
    ((∀ m ∈ t.members, m.id ≠ nm.id) →
      (memberAdded nm t).members = t.members ++ [nm]) ∧
    (memberAdded nm (memberAdded nm t) = memberAdded nm t) ∧
    (t.members.countP (fun m => m.id == nm.id) ≤ 1 →
      (memberAdded nm (memberAdded nm t)).members.countP
          (fun m => m.id == nm.id) = 1) ∧
    ((t.members.map (fun m => m.id)).Nodup →
      ((memberAdded nm t).members.map (fun m => m.id)).Nodup) := by
  have hsingle : List.countP (fun m => m.id == nm.id) [nm] = 1 := by
    simp [List.countP_cons]
  cases hany : t.members.any (fun m => m.id == nm.id) with
  | true =>
    have heq := memberAdded_of_any t nm hany
    have hex := List.any_eq_true.mp hany
    refine ⟨fun _ => heq, ?_, by rw [heq, heq], ?_, ?_⟩
    · intro hall
      obtain ⟨x, hx, hbx⟩ := hex
      exact absurd (show x.id = nm.id by simpa using hbx) (hall x hx)
    · intro hle
      rw [heq, heq]
      have hpos : 0 < t.members.countP (fun m => m.id == nm.id) :=
        List.countP_pos_iff.mpr hex
      omega
    · intro hnd
      rw [heq]
      exact hnd
  | false =>
    have heq := memberAdded_of_not_any t nm hany
    have hall := List.any_eq_false.mp hany
    have hmem2 : (memberAdded nm t).members = t.members ++ [nm] := by
      rw [heq]
    refine ⟨?_, fun _ => hmem2, ?_, ?_, ?_⟩
    · intro ⟨x, hx, hbx⟩
      exact (hall x hx (by simpa using hbx)).elim
    · have hany2 : (memberAdded nm t).members.any (fun m => m.id == nm.id) = true := by
        rw [hmem2]
        exact List.any_eq_true.mpr
          ⟨nm, List.mem_append_right _ (List.mem_singleton_self nm), by simp⟩
      exact memberAdded_of_any _ nm hany2
    · intro _
      have hzero : t.members.countP (fun m => m.id == nm.id) = 0 :=
        List.countP_eq_zero.mpr hall
      have hany2 : (memberAdded nm t).members.any (fun m => m.id == nm.id) = true := by
        rw [hmem2]
        exact List.any_eq_true.mpr
          ⟨nm, List.mem_append_right _ (List.mem_singleton_self nm), by simp⟩
      rw [memberAdded_of_any _ nm hany2, hmem2, List.countP_append, hzero, hsingle]
    · intro hnd
      rw [hmem2, List.map_append]
      rw [List.nodup_append]
      refine ⟨hnd, List.nodup_singleton _, ?_⟩
      intro a ha hb
      simp only [List.map_cons, List.map_nil, List.mem_singleton] at hb
      obtain ⟨x, hx, hxid⟩ := List.mem_map.mp ha
      exact hall x hx (by simp [hxid, hb])

/-- Empty team snapshot, as in the duplicate-delivery scenario of the spec. -/
def emptySnap : TeamSnapshot := { name := "T", members := [], groups := [] }

/-- Sample member used by store-transform witnesses. -/
def memA : TeamMember :=
  { id := "a", name := "Ann", title := none, timezone := "UTC"
    workingHoursStart := 9, workingHoursEnd := 17, groupId := none }

theorem memberAdded_idempotent_unique_witness :
    (memberAdded memA (memberAdded memA emptySnap)).members.countP
        (fun m => m.id == memA.id) = 1 :=
  (memberAdded_idempotent_unique emptySnap memA).2.2.2.1 (by decide)

/-- JS map lookup built in the membersReordered handler: the Map built from
the member list keeps, for each id, the last member carrying that id. -/
def mapGet (members : List TeamMember) (id : String) : Option TeamMember :=
  members.foldl (fun acc m => if m.id == id then some m else acc) none

/-- The team.membersReordered transform: rebuild the member list by looking
every id of the order payload up in the map, dropping ids with no match. -/
def membersReordered (order : List String) (members : List TeamMember) :
    List TeamMember :=
  order.filterMap (fun id => mapGet members id)

/-- Modelled from the spec: the resulting member list consists of exactly the
members whose ids appear in the order list, arranged in the order list
sequence; unmatched ids are skipped and unnamed members are dropped. -/
def membersReorderedSpec (order : List String) (members : List TeamMember) :
    List TeamMember :=
  order.filterMap (fun id => members.find? (fun m => m.id == id))

theorem foldl_mapGet (id : String) :
    ∀ (rest : List TeamMember) (acc : Option TeamMember),
      rest.foldl (fun acc m => if m.id == id then some m else acc) acc =
        (mapGet rest id).or acc := by
  intro rest
  induction rest with
  | nil => intro acc; rfl
  | cons m rest ih =>
    intro acc
    show rest.foldl _ (if m.id == id then some m else acc) = _
    rw [ih]
    have hrhs : mapGet (m :: rest) id =
        (mapGet rest id).or (if m.id == id then some m else none) := by
      show rest.foldl _ (if m.id == id then some m else none) = _
      rw [ih]
    rw [hrhs]
    cases hmg : mapGet rest id with
    | some x => rfl
    | none =>
      cases hb : (m.id == id) with
      | true => simp
      | false => simp

theorem mapGet_eq_none_iff (members : List TeamMember) (id : String) :
    mapGet members id = none ↔ ∀ m ∈ members, (m.id == id) = false := by
  induction members with
  | nil => simp [mapGet]
  | cons m rest ih =>
    have hcons : mapGet (m :: rest) id =
        (mapGet rest id).or (if m.id == id then some m else none) := by
      show rest.foldl _ (if m.id == id then some m else none) = _
      rw [foldl_mapGet]
    rw [hcons]
    constructor
    · intro h
      cases hmg : mapGet rest id with
      | some x => rw [hmg] at h; exact absurd h (by simp)
      | none =>
        rw [hmg] at h
        cases hb : (m.id == id) with
        | true => rw [hb] at h; exact absurd h (by simp)
        | false =>
          intro x hx
          rcases List.mem_cons.mp hx with hxm | hxr
          · rw [hxm]; exact hb
          · exact (ih.mp hmg) x hxr
    · intro h
      have hm : (m.id == id) = false := h m (List.mem_cons_self m rest)
      have hr : mapGet rest id = none :=
        ih.mpr (fun x hx => h x (List.mem_cons_of_mem m hx))
      rw [hm, hr]
      rfl

theorem mapGet_eq_find?_of_nodup (members : List TeamMember) (id : String)
    (hnd : (members.map (fun m => m.id)).Nodup) :
    mapGet members id = members.find? (fun m => m.id == id) := by
  induction members with
  | nil => rfl
  | cons m rest ih =>
    have hndr : (rest.map (fun m => m.id)).Nodup := (List.nodup_cons.mp hnd).2
    have hnotin : m.id ∉ rest.map (fun x => x.id) := (List.nodup_cons.mp hnd).1
    have hcons : mapGet (m :: rest) id =
        (mapGet rest id).or (if m.id == id then some m else none) := by
      show rest.foldl _ (if m.id == id then some m else none) = _
      rw [foldl_mapGet]
    rw [hcons, List.find?_cons]
    cases hb : (m.id == id) with
    | true =>
      have hid : m.id = id := by simpa using hb
      have hrest : mapGet rest id = none := by
        rw [mapGet_eq_none_iff]
        intro x hx
        have : x.id ≠ id := by
          intro hcontra
          exact hnotin (List.mem_map.mpr ⟨x, hx, by rw [hcontra, hid]⟩)
        simpa using this
      rw [hrest]
      rfl
    | false =>
      rw [ih hndr]
      cases hf : rest.find? (fun m => m.id == id) <;> rfl

/-- Second sample member, in a group, used by reorder examples. -/
def memB : TeamMember :=
  { id := "b", name := "Bo", title := some "Eng", timezone := "Asia/Tokyo"
    workingHoursStart := 22, workingHoursEnd := 6, groupId := some "g1" }

/-- C2: the membersReordered transform rebuilds the member list as exactly
the members whose ids appear in the order payload, in payload order; ids
without a matching member are skipped and members missing from the payload
are dropped, as in the two documented examples. -/
theorem membersReordered_follows_order :
    (∀ (members : List TeamMember) (order : List String),
        (members.map (fun m => m.id)).Nodup →
        membersReordered order members = membersReorderedSpec order members) ∧
    membersReordered [memB.id, memA.id] [memA, memB] = [memB, memA] ∧
    membersReordered [memB.id] [memA, memB] = [memB] := by
  refine ⟨?_, by decide, by decide⟩
  intro members order hnd
  unfold membersReordered membersReorderedSpec
  have hfun : (fun id => mapGet members id) =
      (fun id => members.find? (fun m => m.id == id)) :=
    funext (fun id => mapGet_eq_find?_of_nodup members id hnd)
  rw [hfun]

theorem membersReordered_follows_order_witness :
    membersReordered ["b", "a"] [memA, memB] =
      membersReorderedSpec ["b", "a"] [memA, memB] :=
  membersReordered_follows_order.1 [memA, memB] ["b", "a"] (by decide)

/-- The team.groupRemoved transform: drop the group from the group list and
clear the group reference of every member assigned to it. -/
def groupRemoved (groupId : String) (t : TeamSnapshot) : TeamSnapshot :=
  { t with
    groups := t.groups.filter (fun g => g.id != groupId),
    members := t.members.map (fun m =>
      if m.groupId = some groupId then { m with groupId := none } else m) }

/-- C3: groupRemoved removes the group and unassigns, never deletes, its
members: the member count and order are unchanged and every field of every
member except a matching groupId (cleared to none) is unchanged; groups with
a different id are kept. -/
theorem groupRemoved_unassigns_members (t : TeamSnapshot) (gid : String) :
    (∀ g ∈ (groupRemoved gid t).groups, g.id ≠ gid) ∧
    (∀ g ∈ t.groups, g.id ≠ gid → g ∈ (groupRemoved gid t).groups) ∧
    ((groupRemoved gid t).members.length = t.members.length) ∧
    (∀ (i : Nat) (m' : TeamMember), (groupRemoved gid t).members[i]? = some m' →
      ∃ m, t.members[i]? = some m ∧ m'.id = m.id ∧ m'.name = m.name ∧
        m'.title = m.title ∧ m'.timezone = m.timezone ∧
        m'.workingHoursStart = m.workingHoursStart ∧
        m'.workingHoursEnd = m.workingHoursEnd ∧
        m'.groupId = (if m.groupId = some gid then none else m.groupId)) := by
  refine ⟨?_, ?_, ?_, ?_⟩
  · intro g hg
    have := List.mem_filter.mp hg
    simpa using this.2
  · intro g hg hne
    exact List.mem_filter.mpr ⟨hg, by simpa using hne⟩
  · exact List.length_map ..
  · intro i m' h
    have h2 : (t.members.map (fun m =>
        if m.groupId = some gid then { m with groupId := none } else m))[i]? =
          some m' := h
    rw [List.getElem?_map] at h2
    cases ht : t.members[i]? with
    | none => rw [ht] at h2; exact absurd h2 (by simp)
    | some m =>
      rw [ht] at h2
      simp only [Option.map_some'] at h2
      have hm' : m' = if m.groupId = some gid then { m with groupId := none } else m :=
        (Option.some.inj h2).symm
      refine ⟨m, rfl, ?_⟩
      by_cases hgm : m.groupId = some gid
      · rw [hm']
        simp [hgm]
      · rw [hm']
        simp [hgm]

/-- Team snapshot with one assigned member and two groups, used to witness
the groupRemoved transform. -/
def snapGroups : TeamSnapshot :=
  { name := "T"
    members := [{ id := "a", name := "Ann", title := none, timezone := "UTC"
                  workingHoursStart := 9, workingHoursEnd := 17
                  groupId := some "g1" }]
    groups := [{ id := "g1", name := "Alpha", order := 0 },
               { id := "g2", name := "Beta", order := 1 }] }

theorem groupRemoved_unassigns_members_witness :
    (groupRemoved "g1" snapGroups).members.length = snapGroups.members.length ∧
    TeamGroup.mk "g2" "Beta" 1 ∈ (groupRemoved "g1" snapGroups).groups := by
  have h := groupRemoved_unassigns_members snapGroups "g1"
  exact ⟨h.2.2.1, h.2.1 (TeamGroup.mk "g2" "Beta" 1) (by decide) (by decide)⟩

/-- JS Array.lastIndexOf(true) as an optional index: position of the last
true element, scanned via the reversed list. -/
def lastIndexOfTrue (mask : List Bool) : Option Nat :=
  (mask.reverse.findIdx? (fun b => b)).map (fun i => mask.length - 1 - i)

/-- The overlap summary of the visualizer, reduced to its index content:
none when either findIndex or lastIndexOf fails, otherwise the pair of the
first true index and the last true index plus one taken modulo 24. -/
def overlapSummaryIdx (mask : List Bool) : Option (Nat × Nat) :=
  match mask.findIdx? (fun b => b), lastIndexOfTrue mask with
  | some s, some e => some (s, (e + 1) % 24)
  | _, _ => none

/-- C5: the summary reports no overlap exactly when no mask element is true;
otherwise it reports the window from the first true index to the last true
index plus one (modulo 24), regardless of contiguity of the true elements. -/
theorem overlapSummary_first_last (mask : List Bool) :
    (overlapSummaryIdx mask = none ↔ ∀ b ∈ mask, b = false) ∧
    (∀ (s eEx : Nat), overlapSummaryIdx mask = some (s, eEx) →
      (mask[s]? = some true ∧ ∀ j, j < s → mask[j]? = some false) ∧
      ∃ l, mask[l]? = some true ∧
        (∀ j, l < j → j < mask.length → mask[j]? = some false) ∧
        eEx = (l + 1) % 24) := by
  constructor
  · constructor
    · intro hnone b hb
      cases hbv : b with
      | false => rfl
      | true =>
        exfalso
        have hmem : true ∈ mask := hbv ▸ hb
        have hf : ∃ s0, mask.findIdx? (fun x => x) = some s0 := by
          cases hfi : mask.findIdx? (fun x => x) with
          | some s0 => exact ⟨s0, rfl⟩
          | none =>
            have := List.findIdx?_eq_none_iff.mp hfi true hmem
            simp at this
        have hrv : ∃ i, mask.reverse.findIdx? (fun x => x) = some i := by
          cases hfi : mask.reverse.findIdx? (fun x => x) with
          | some i => exact ⟨i, rfl⟩
          | none =>
            have := List.findIdx?_eq_none_iff.mp hfi true (List.mem_reverse.mpr hmem)
            simp at this
        obtain ⟨s0, hs0⟩ := hf
        obtain ⟨i, hi⟩ := hrv
        unfold overlapSummaryIdx lastIndexOfTrue at hnone
        rw [hs0, hi] at hnone
        simp at hnone
    · intro hall
      have hf : mask.findIdx? (fun x => x) = none :=
        List.findIdx?_eq_none_iff.mpr (fun x hx => by simp [hall x hx])
      unfold overlapSummaryIdx
      rw [hf]
  · intro s eEx h
    unfold overlapSummaryIdx lastIndexOfTrue at h
    cases hf : mask.findIdx? (fun x => x) with
    | none => rw [hf] at h; simp at h
    | some s0 =>
      cases hr : mask.reverse.findIdx? (fun x => x) with
      | none => rw [hf, hr] at h; simp at h
      | some i =>
        rw [hf, hr] at h
        simp only [Option.map_some', Option.some.injEq, Prod.mk.injEq] at h
        obtain ⟨h1, h2⟩ := h
        subst h1
        subst h2
        obtain ⟨hlt, hp, hprev⟩ := List.findIdx?_eq_some_iff_getElem.mp hf
        obtain ⟨hilt, hpi, hiprev⟩ := List.findIdx?_eq_some_iff_getElem.mp hr
        have hilen : i < mask.length := by
          have := hilt
          rwa [List.length_reverse] at this
        refine ⟨⟨?_, ?_⟩, ?_⟩
        · rw [List.getElem?_eq_getElem hlt]
          simpa using hp
        · intro j hj
          have hjlt : j < mask.length := Nat.lt_trans hj hlt
          rw [List.getElem?_eq_getElem hjlt]
          have hnp := hprev j hj
          simp only [Bool.not_eq_true] at hnp
          simpa using hnp
        · refine ⟨mask.length - 1 - i, ?_, ?_, rfl⟩
          · have hrevq : mask.reverse[i]? = some true := by
              rw [List.getElem?_eq_getElem hilt]
              simpa using hpi
            rwa [List.getElem?_reverse hilen] at hrevq
          · intro j hjl hjlen
            have hi' : mask.length - 1 - j < i := by omega
            have hi'len : mask.length - 1 - j < mask.length := by omega
            have hnp := hiprev (mask.length - 1 - j) hi'
            simp only [Bool.not_eq_true] at hnp
            have hrevq : mask.reverse[mask.length - 1 - j]? = some false := by
              rw [List.getElem?_eq_getElem (by rw [List.length_reverse]; omega :
                mask.length - 1 - j < mask.reverse.length)]
              simpa using hnp
            rw [List.getElem?_reverse hi'len] at hrevq
            rw [show mask.length - 1 - (mask.length - 1 - j) = j from by omega] at hrevq
            exact hrevq

/-- Non-contiguous 24-element mask used to witness the overlap summary. -/
def maskGap : List Bool :=
  [false, true, false, true] ++ List.replicate 20 false

theorem overlapSummary_first_last_witness :
    overlapSummaryIdx maskGap = some (1, 4) ∧ maskGap[1]? = some true := by
  have hsum : overlapSummaryIdx maskGap = some (1, 4) := by decide
  exact ⟨hsum, (((overlapSummary_first_last maskGap).2 1 4 hsum).1).1⟩

/-! ### Local identity resolver (hooks/use-current-team-user.ts) -/

/-- Provenance tag of a selection. -/
inductive SelectionSource where
  | explicitChoice
  | suggestedChoice
deriving DecidableEq

/-- Persisted resolver state: optional chosen member id, provenance tag and
the set of dismissed suggestion ids. -/
structure CurrentTeamUserState where
  memberId : Option String
  source : Option SelectionSource
  dismissedSuggestions : List String
deriving DecidableEq

/-- The DEFAULT_STATE constant of the hook. -/
def DEFAULT_STATE : CurrentTeamUserState :=
  { memberId := none, source := none, dismissedSuggestions := [] }

/-- The suggestedUser memo: no suggestion when a selection exists or the
viewer timezone is unresolved; otherwise the unique exact timezone match,
unless previously dismissed. -/
def suggestedUser (state : CurrentTeamUserState) (viewerTimezone : String)
    (members : List TeamMember) : Option TeamMember :=
  if state.memberId.isSome then none
  else if viewerTimezone = "" then none
  else
    match members.filter (fun m => m.timezone == viewerTimezone) with
    | [m] => if state.dismissedSuggestions.contains m.id then none else some m
    | _ => none

/-- The dismissSuggestion callback: record the id in the dismissed set. -/
def dismissSuggestion (state : CurrentTeamUserState) (memberId : String) :
    CurrentTeamUserState :=
  { state with dismissedSuggestions := state.dismissedSuggestions ++ [memberId] }

theorem suggestedUser_eq_some_iff (state : CurrentTeamUserState)
    (viewerTimezone : String) (members : List TeamMember) (m : TeamMember) :
    suggestedUser state viewerTimezone members = some m ↔
      (state.memberId = none ∧ viewerTimezone ≠ "" ∧
        members.filter (fun x => x.timezone == viewerTimezone) = [m] ∧
        state.dismissedSuggestions.contains m.id = false) := by
  unfold suggestedUser
  cases hmem : state.memberId with
  | some v =>
    constructor
    · intro h; exact absurd h (by simp)
    · rintro ⟨hc, _⟩; exact absurd hc (by simp)
  | none =>
    rw [if_neg (by simp)]
    by_cases hv : viewerTimezone = ""
    · rw [if_pos hv]
      constructor
      · intro h; exact absurd h (by simp)
      · rintro ⟨_, hne, _⟩; exact absurd hv hne
    · rw [if_neg hv]
      rcases hfil : members.filter (fun x => x.timezone == viewerTimezone) with
        _ | ⟨a, _ | ⟨b, rest⟩⟩
      · rw [hfil]
        constructor
        · intro h
          exact absurd (show (none : Option TeamMember) = some m from h) (by simp)
        · rintro ⟨_, _, hfeq, _⟩
          exact absurd hfeq (by simp)
      · rw [hfil]
        show (if state.dismissedSuggestions.contains a.id = true then none
            else some a) = some m ↔ _
        by_cases hd : state.dismissedSuggestions.contains a.id = true
        · rw [if_pos hd]
          constructor
          · intro h; exact absurd h (by simp)
          · rintro ⟨_, _, hfeq, hdis⟩
            injection hfeq with h1 _
            rw [h1] at hd
            rw [hd] at hdis
            exact absurd hdis (by simp)
        · rw [if_neg hd]
          have hdf : state.dismissedSuggestions.contains a.id = false := by
            revert hd
            cases state.dismissedSuggestions.contains a.id <;> simp
          constructor
          · intro h
            have ham : a = m := Option.some.inj h
            rw [← ham]
            exact ⟨rfl, hv, rfl, hdf⟩
          · rintro ⟨_, _, hfeq, _⟩
            injection hfeq with h1 _
            rw [h1]
      · rw [hfil]
        constructor
        · intro h
          exact absurd (show (none : Option TeamMember) = some m from h) (by simp)
        · rintro ⟨_, _, hfeq, _⟩
          exact absurd hfeq (by simp)

/-- Member carrying the empty timezone string, matching an unresolved viewer
timezone. -/
def memNoTz : TeamMember :=
  { id := "m1", name := "Mia", title := none, timezone := ""
    workingHoursStart := 9, workingHoursEnd := 17, groupId := none }

/-- C6 counterexample: with the unresolved (empty-string) viewer timezone, no
selection, exactly one member whose timezone string equals the viewer
timezone string and no dismissal, the hook still suggests nobody, so the
claimed equivalence fails at this input. -/
theorem suggestedUser_nonnull_iff_counterexample :
    DEFAULT_STATE.memberId = none ∧
    [memNoTz].filter (fun m => m.timezone == "") = [memNoTz] ∧
    DEFAULT_STATE.dismissedSuggestions.contains memNoTz.id = false ∧
    suggestedUser DEFAULT_STATE "" [memNoTz] = none := by
  refine ⟨rfl, by decide, by decide, rfl⟩

/-- C6 amended: under the extra requirement that the viewer timezone is
resolved (non-empty), the suggestion is non-null exactly when no member is
selected, exactly one member matches the viewer timezone and that member was
not dismissed; in that case the suggestion is that member, and dismissing it
turns the suggestion to null even though the match still holds. -/
theorem suggestedUser_nonnull_iff_amended (state : CurrentTeamUserState)
    (viewerTimezone : String) (members : List TeamMember) :
    ((suggestedUser state viewerTimezone members).isSome = true ↔
      (state.memberId = none ∧ viewerTimezone ≠ "" ∧
        ∃ m, members.filter (fun x => x.timezone == viewerTimezone) = [m] ∧
          state.dismissedSuggestions.contains m.id = false)) ∧
    (∀ m : TeamMember,
      members.filter (fun x => x.timezone == viewerTimezone) = [m] →
      state.memberId = none → viewerTimezone ≠ "" →
      state.dismissedSuggestions.contains m.id = false →
      suggestedUser state viewerTimezone members = some m) ∧
    (∀ m : TeamMember, suggestedUser state viewerTimezone members = some m →
      suggestedUser (dismissSuggestion state m.id) viewerTimezone members = none) := by
  refine ⟨⟨?_, ?_⟩, ?_, ?_⟩
  · intro h
    obtain ⟨m, hm⟩ := Option.isSome_iff_exists.mp h
    obtain ⟨h1, h2, h3, h4⟩ :=
      (suggestedUser_eq_some_iff state viewerTimezone members m).mp hm
    exact ⟨h1, h2, m, h3, h4⟩
  · rintro ⟨h1, h2, m, h3, h4⟩
    rw [(suggestedUser_eq_some_iff state viewerTimezone members m).mpr ⟨h1, h2, h3, h4⟩]
    rfl
  · intro m hfil hmem hv hdis
    exact (suggestedUser_eq_some_iff state viewerTimezone members m).mpr
      ⟨hmem, hv, hfil, hdis⟩
  · intro m h
    obtain ⟨hmemN, hvtz, hfil, _⟩ :=
      (suggestedUser_eq_some_iff state viewerTimezone members m).mp h
    show suggestedUser (dismissSuggestion state m.id) viewerTimezone members = none
    unfold suggestedUser dismissSuggestion
    simp only [hmemN, Option.isSome_none]
    rw [if_neg (by simp)]
    rw [if_neg hvtz]
    rw [hfil]
    have hcont : (state.dismissedSuggestions ++ [m.id]).contains m.id = true := by
      simp
    show (if (state.dismissedSuggestions ++ [m.id]).contains m.id = true then none
        else some m) = none
    rw [if_pos hcont]

/-- Member in the UTC timezone, as in the suggestion scenario of the spec. -/
def memUTC : TeamMember :=
  { id := "u1", name := "Uma", title := none, timezone := "UTC"
    workingHoursStart := 9, workingHoursEnd := 17, groupId := none }

theorem suggestedUser_nonnull_iff_amended_witness :
    suggestedUser DEFAULT_STATE "UTC" [memUTC] = some memUTC ∧
    suggestedUser (dismissSuggestion DEFAULT_STATE memUTC.id) "UTC" [memUTC] =
      none := by
  have h := suggestedUser_nonnull_iff_amended DEFAULT_STATE "UTC" [memUTC]
  have h1 : suggestedUser DEFAULT_STATE "UTC" [memUTC] = some memUTC :=
    h.2.1 memUTC (by decide) rfl (by decide) (by decide)
  exact ⟨h1, h.2.2 memUTC h1⟩

/-- The currentUser memo: the member matching the stored id, if any. -/
def currentUserOf (members : List TeamMember) (state : CurrentTeamUserState) :
    Option TeamMember :=
  match state.memberId with
  | none => none
  | some id => members.find? (fun m => m.id == id)

/-- The cache-invalidation effect of the hook: when a member id is stored,
no member matches it and the member list is known non-empty, clear the
selection; otherwise leave the state alone. -/
def clearStaleSelection (members : List TeamMember)
    (state : CurrentTeamUserState) : CurrentTeamUserState :=
  if state.memberId.isSome = true ∧ currentUserOf members state = none ∧
      0 < members.length then
    { state with memberId := none, source := none }
  else state

/-- C7: when the member list is known and non-empty and the stored id matches
no member, the resolver clears both the member id and the source; the
dismissed set is always left unchanged, and nothing is cleared while the
member list is empty. -/
theorem clearStaleSelection_clears_missing_member
    (members : List TeamMember) (state : CurrentTeamUserState) :
    ((state.memberId.isSome = true ∧ currentUserOf members state = none ∧
        members ≠ []) →
      (clearStaleSelection members state).memberId = none ∧
      (clearStaleSelection members state).source = none) ∧
    ((clearStaleSelection members state).dismissedSuggestions =
      state.dismissedSuggestions) ∧
    (members = [] → clearStaleSelection members state = state) := by
  refine ⟨?_, ?_, ?_⟩
  · rintro ⟨h1, h2, h3⟩
    have hlen : 0 < members.length := List.length_pos.mpr h3
    unfold clearStaleSelection
    rw [if_pos ⟨h1, h2, hlen⟩]
    exact ⟨rfl, rfl⟩
  · unfold clearStaleSelection
    by_cases h : state.memberId.isSome = true ∧ currentUserOf members state = none ∧
        0 < members.length
    · rw [if_pos h]
    · rw [if_neg h]
  · intro h3
    unfold clearStaleSelection
    rw [if_neg (by
      rintro ⟨_, _, hlen⟩
      rw [h3] at hlen
      simp at hlen)]

/-- Stored state pointing at a member id that no longer exists. -/
def staleState : CurrentTeamUserState :=
  { memberId := some "ghost", source := some SelectionSource.explicitChoice
    dismissedSuggestions := ["x"] }

theorem clearStaleSelection_clears_missing_member_witness :
    ((clearStaleSelection [memUTC] staleState).memberId = none ∧
      (clearStaleSelection [memUTC] staleState).source = none) ∧
    (clearStaleSelection [memUTC] staleState).dismissedSuggestions =
      staleState.dismissedSuggestions := by
  have h := clearStaleSelection_clears_missing_member [memUTC] staleState
  exact ⟨h.1 ⟨rfl, by decide, by decide⟩, h.2.1⟩

/-! ### Optimistic drag-and-drop mutation (handleMemberDroppedOnGroup) -/

/-- Result trace of handleMemberDroppedOnGroup: the store right after the
optimistic write, the store after the request settles, and whether a
user-visible error was recorded. -/
structure DropResult where
  afterOptimistic : List TeamMember
  final : List TeamMember
  errorRecorded : Bool
deriving DecidableEq

/-- The member-list rewrite used for both the optimistic write and the
rollback: set the groupId of the member carrying the given id. -/
def setMemberGroup (members : List TeamMember) (memberId : String)
    (groupId : Option String) : List TeamMember :=
  members.map (fun m => if m.id == memberId then { m with groupId := groupId } else m)

/-- The handleMemberDroppedOnGroup callback: guard on admin access and
session, skip unknown members and already-grouped members, write the group
optimistically, then either keep it on request success or roll the member
back to its captured previous group and record an error. -/
def handleMemberDroppedOnGroup (isAdmin hasSession : Bool)
    (members : List TeamMember) (memberId groupId : String)
    (requestSucceeds : Bool) : DropResult :=
  if !isAdmin || !hasSession then ⟨members, members, true⟩
  else
    match members.find? (fun m => m.id == memberId) with
    | none => ⟨members, members, false⟩
    | some member =>
      if member.groupId = some groupId then ⟨members, members, false⟩
      else
        let previousGroupId := member.groupId
        let optimistic := setMemberGroup members memberId (some groupId)
        if requestSucceeds then ⟨optimistic, optimistic, false⟩
        else ⟨optimistic, setMemberGroup optimistic memberId previousGroupId, true⟩

theorem find?_setMemberGroup (members : List TeamMember) (memberId : String)
    (gid : Option String) :
    (setMemberGroup members memberId gid).find? (fun x => x.id == memberId) =
      (members.find? (fun x => x.id == memberId)).map
        (fun m => { m with groupId := gid }) := by
  induction members with
  | nil => rfl
  | cons m rest ih =>
    show ((if m.id == memberId then { m with groupId := gid } else m) ::
        setMemberGroup rest memberId gid).find? (fun x => x.id == memberId) = _
    cases hb : (m.id == memberId) with
    | true =>
      rw [if_pos rfl]
      simp [hb]
    | false =>
      rw [if_neg (by simp)]
      simpa [hb] using ih

/-- C8: dragging a member into a group first applies the optimistic write,
then on request failure rolls the member back to the captured previous group
and records an error, while on success the optimistic store stands with no
error recorded. -/
theorem memberDrop_optimistic_rollback (members : List TeamMember)
    (memberId gid : String) (m : TeamMember) (success : Bool)
    (hfind : members.find? (fun x => x.id == memberId) = some m)
    (hne : m.groupId ≠ some gid) :
    ((handleMemberDroppedOnGroup true true members memberId gid
        success).afterOptimistic.find? (fun x => x.id == memberId) =
      some { m with groupId := some gid }) ∧
    (success = true →
      (handleMemberDroppedOnGroup true true members memberId gid success).final =
        (handleMemberDroppedOnGroup true true members memberId gid
          success).afterOptimistic ∧
      (handleMemberDroppedOnGroup true true members memberId gid
        success).errorRecorded = false) ∧
    (success = false →
      (handleMemberDroppedOnGroup true true members memberId gid
        success).final.find? (fun x => x.id == memberId) = some m ∧
      (handleMemberDroppedOnGroup true true members memberId gid
        success).errorRecorded = true) := by
  cases success with
  | true =>
    have hred : handleMemberDroppedOnGroup true true members memberId gid true =
        ⟨setMemberGroup members memberId (some gid),
         setMemberGroup members memberId (some gid), false⟩ := by
      unfold handleMemberDroppedOnGroup
      rw [if_neg (show ¬((!true || !true) = true) from by decide)]
      rw [hfind]
      show (if m.groupId = some gid then (⟨members, members, false⟩ : DropResult)
          else ⟨setMemberGroup members memberId (some gid),
            setMemberGroup members memberId (some gid), false⟩) = _
      rw [if_neg hne]
    refine ⟨?_, fun _ => ⟨?_, ?_⟩, fun hc => absurd hc (by simp)⟩
    · rw [hred]
      show (setMemberGroup members memberId (some gid)).find?
          (fun x => x.id == memberId) = _
      rw [find?_setMemberGroup, hfind]
      rfl
    · rw [hred]
    · rw [hred]
  | false =>
    have hred : handleMemberDroppedOnGroup true true members memberId gid false =
        ⟨setMemberGroup members memberId (some gid),
         setMemberGroup (setMemberGroup members memberId (some gid)) memberId
           m.groupId, true⟩ := by
      unfold handleMemberDroppedOnGroup
      rw [if_neg (show ¬((!true || !true) = true) from by decide)]
      rw [hfind]
      show (if m.groupId = some gid then (⟨members, members, false⟩ : DropResult)
          else ⟨setMemberGroup members memberId (some gid),
            setMemberGroup (setMemberGroup members memberId (some gid)) memberId
              m.groupId, true⟩) = _
      rw [if_neg hne]
    refine ⟨?_, fun hc => absurd hc (by simp), fun _ => ⟨?_, ?_⟩⟩
    · rw [hred]
      show (setMemberGroup members memberId (some gid)).find?
          (fun x => x.id == memberId) = _
      rw [find?_setMemberGroup, hfind]
      rfl
    · rw [hred]
      show (setMemberGroup (setMemberGroup members memberId (some gid)) memberId
          m.groupId).find? (fun x => x.id == memberId) = some m
      rw [find?_setMemberGroup, find?_setMemberGroup, hfind]
      rfl
    · rw [hred]

/-- Ungrouped member dropped onto a group in the witness scenario. -/
def memFree : TeamMember :=
  { id := "f1", name := "Fay", title := none, timezone := "UTC"
    workingHoursStart := 8, workingHoursEnd := 16, groupId := none }

theorem memberDrop_optimistic_rollback_witness :
    (handleMemberDroppedOnGroup true true [memFree] "f1" "g1"
      false).final.find? (fun x => x.id == "f1") = some memFree ∧
    (handleMemberDroppedOnGroup true true [memFree] "f1" "g1"
      false).errorRecorded = true :=
  (memberDrop_optimistic_rollback [memFree] "f1" "g1" memFree false
    (by decide) (by decide)).2.2 rfl

/-! ### Session validation (lib/team-session.ts) -/

/-- JSON values as produced by JSON.parse. -/
inductive JsonValue where
  | null
  | bool (b : Bool)
  | num (n : Int)
  | str (s : String)
  | arr (elems : List JsonValue)
  | obj (fields : List (String × JsonValue))

/-- JS property access on a parsed value: the last binding of the key on an
object, undefined (none) on every other value. -/
def getField : JsonValue → String → Option JsonValue
  | JsonValue.obj fields, key =>
    (fields.reverse.find? (fun f => f.1 == key)).map (fun f => f.2)
  | _, _ => none

/-- The truthy typeof-object test of isTeamSession: objects and arrays. -/
def isObjectLike : JsonValue → Bool
  | JsonValue.obj _ => true
  | JsonValue.arr _ => true
  | _ => false

/-- The isTeamSession guard: an object-like value with a string token field
and a role field equal to admin or member. -/
def isTeamSession (v : JsonValue) : Bool :=
  isObjectLike v &&
    (match getField v "token" with
     | some (JsonValue.str _) => true
     | _ => false) &&
    (match getField v "role" with
     | some (JsonValue.str r) => r == "admin" || r == "member"
     | _ => false)

/-- The three observable shapes of a stored session value: missing key,
raw text that JSON.parse rejects, or a parsed JSON value. -/
inductive StoredValue where
  | absent
  | malformed
  | value (v : JsonValue)

/-- readTeamSession: null on a missing value, null when JSON.parse throws,
and the parsed value only when it passes isTeamSession. -/
def readTeamSession : StoredValue → Option JsonValue
  | StoredValue.absent => none
  | StoredValue.malformed => none
  | StoredValue.value v => if isTeamSession v then some v else none

theorem isTeamSession_eq_false_of_no_token (v : JsonValue)
    (h : ∀ s : String, getField v "token" ≠ some (JsonValue.str s)) :
    isTeamSession v = false := by
  unfold isTeamSession
  cases htok : getField v "token" with
  | none => simp
  | some j =>
    cases j with
    | str s => exact absurd htok (h s)
    | null => simp
    | bool b => simp
    | num n => simp
    | arr xs => simp
    | obj fs => simp

theorem isTeamSession_eq_false_of_bad_role (v : JsonValue)
    (h1 : getField v "role" ≠ some (JsonValue.str "admin"))
    (h2 : getField v "role" ≠ some (JsonValue.str "member")) :
    isTeamSession v = false := by
  unfold isTeamSession
  cases hrole : getField v "role" with
  | none => simp
  | some j =>
    cases j with
    | str r =>
      have hr1 : r ≠ "admin" := by
        intro hc
        rw [hc] at hrole
        exact h1 hrole
      have hr2 : r ≠ "member" := by
        intro hc
        rw [hc] at hrole
        exact h2 hrole
      simp [hr1, hr2]
    | null => simp
    | bool b => simp
    | num n => simp
    | arr xs => simp
    | obj fs => simp

theorem isTeamSession_eq_true_of_valid (v : JsonValue) (s : String)
    (htok : getField v "token" = some (JsonValue.str s))
    (hrole : getField v "role" = some (JsonValue.str "admin") ∨
      getField v "role" = some (JsonValue.str "member")) :
    isTeamSession v = true := by
  have hobj : isObjectLike v = true := by
    cases v with
    | obj fs => rfl
    | arr xs => rfl
    | null => exact absurd htok (by simp [getField])
    | bool b => exact absurd htok (by simp [getField])
    | num n => exact absurd htok (by simp [getField])
    | str t => exact absurd htok (by simp [getField])
  unfold isTeamSession
  rw [hobj, htok]
  rcases hrole with hr | hr <;> rw [hr] <;> rfl

/-- C9: readTeamSession falls back to null, never an error, on an absent
value, on text JSON.parse rejects, on a parse result without a string token
and on a parse result whose role is neither admin nor member; it returns the
stored session value exactly when the token is a string and the role is
admin or member. -/
theorem readTeamSession_tolerant :
    readTeamSession StoredValue.absent = none ∧
    readTeamSession StoredValue.malformed = none ∧
    (∀ v : JsonValue,
      (∀ s : String, getField v "token" ≠ some (JsonValue.str s)) →
      readTeamSession (StoredValue.value v) = none) ∧
    (∀ v : JsonValue, getField v "role" ≠ some (JsonValue.str "admin") →
      getField v "role" ≠ some (JsonValue.str "member") →
      readTeamSession (StoredValue.value v) = none) ∧
    (∀ (v : JsonValue) (s : String),
      getField v "token" = some (JsonValue.str s) →
      (getField v "role" = some (JsonValue.str "admin") ∨
        getField v "role" = some (JsonValue.str "member")) →
      readTeamSession (StoredValue.value v) = some v) := by
  refine ⟨rfl, rfl, ?_, ?_, ?_⟩
  · intro v h
    show (if isTeamSession v = true then some v else none) = none
    rw [isTeamSession_eq_false_of_no_token v h]
    simp
  · intro v h1 h2
    show (if isTeamSession v = true then some v else none) = none
    rw [isTeamSession_eq_false_of_bad_role v h1 h2]
    simp
  · intro v s htok hrole
    show (if isTeamSession v = true then some v else none) = some v
    rw [isTeamSession_eq_true_of_valid v s htok hrole]
    simp

/-- A parsed session object with a string token and the admin role. -/
def sessionJson : JsonValue :=
  JsonValue.obj [("token", JsonValue.str "tok"), ("role", JsonValue.str "admin")]

theorem readTeamSession_tolerant_witness :
    readTeamSession (StoredValue.value sessionJson) = some sessionJson :=
  readTeamSession_tolerant.2.2.2.2 sessionJson "tok" rfl (Or.inl rfl)

end CollabTime
